import Mathlib

/-!
Verification of core TiledArray components against their sources:

* `LazyArrayTile`, `ArrayEvalImpl::eval_kernel` / `eval_tiles`
  (src/TiledArray/dist_eval/array_eval.h);
* `UnaryWrapper` (src/TiledArray/tile_op/unary_wrapper.h);
* the `invoke` dispatcher (TiledArray::meta::invoke, meta.h);
* the `ReduceTask` / `ReducePairTask` engine, modelled from the spec since
  reduce_task.h itself is not among the provided sources (only its unit tests);
* `binary_vector_op` and the loop-unwind helpers (TiledArray/math/vector_op.h).

Machine integers (`std::size_t`) are modelled as `Nat` with explicit masking by
`2 ^ 64` where the bit width matters.
-/

namespace TiledArray

/-! ### LazyArrayTile (array_eval.h, lines 40-96) -/

/-- Lazy tile for evaluating array tiles on the fly (`LazyArrayTile` in
array_eval.h).  It owns a copy of the input tile (`tile_`), the shared tile
operation (`op_`, held through a shared pointer in the source and hence
immutable and shared across tiles), and the consumable flag (`consume_`). -/
structure LazyArrayTile (Tile R : Type) where
  tile : Tile
  op : Tile → Bool → R
  consume : Bool

/-- Conversion of a lazy tile to its evaluation type (array_eval.h line 88):
`operator eval_type() const { return (*op_)(tile_, consume_); }`.
The stored tile is kept unevaluated until this conversion is invoked. -/
def LazyArrayTile.evalType {Tile R : Type} (t : LazyArrayTile Tile R) : R :=
  t.op t.tile t.consume

/-- Model of the `TA_ASSERT` assertion: normal completion when the condition
holds, an assertion-style fatal error otherwise. -/
def TA_ASSERT (cond : Bool) : Except String Unit :=
  if cond then Except.ok () else Except.error "TA_ASSERT failed"

/-- Serialization of a lazy tile (array_eval.h lines 91-94).  The member is
`template <typename Archive> void serialize(const Archive&) { TA_ASSERT(false); }`:
it unconditionally raises the assertion for every archive type and tile state. -/
def LazyArrayTile.serialize {Tile R A : Type} (_t : LazyArrayTile Tile R)
    (_archive : A) : Except String Unit :=
  TA_ASSERT false

/-! ### Permutations and ranges

permutation.h and range.h are not among the provided sources; the following two
structures are modelled from the spec ("Permutation describes index reordering
applied to a result"; "tile ordinal and multi-index are related by a bijection
fixed at construction"). -/

/-- Modelled from the spec: a `Permutation` over `dim` dimension positions,
together with its inverse action.  `neg` is the inverse permutation `-perm`
used by `ArrayEvalImpl`. -/
structure Permutation where
  dim : ℕ
  toFun : ℕ → ℕ
  invFun : ℕ → ℕ

/-- The inverse permutation `-p`: swap the forward and inverse actions. -/
def Permutation.neg (p : Permutation) : Permutation :=
  ⟨p.dim, p.invFun, p.toFun⟩

/-- Modelled from the spec: action `p ^ idx` of a permutation on a multi-index;
position `k` of the result reads position `p.toFun k` of the argument. -/
def Permutation.apply (p : Permutation) (idx : List ℕ) : List ℕ :=
  (List.range p.dim).map (fun k => idx.getD (p.toFun k) 0)

/-- Truth test on a permutation (`perm_ ?` in unary_wrapper.h): true exactly for
a nonempty permutation, i.e. when a permutation was requested. -/
def Permutation.present (p : Permutation) : Bool :=
  p.dim != 0

/-- Modelled from the spec: a range maps tile ordinals to multi-indices
(`idx`) and multi-indices back to ordinals (`ord`). -/
structure RangeModel where
  idx : ℕ → List ℕ
  ord : List ℕ → ℕ

/-! ### ArrayEvalImpl (array_eval.h, lines 110-248) -/

/-- Environment of one `ArrayEvalImpl` evaluation: the local tile ordinals
iterated by the target process map (`TensorImpl_::pmap()->begin() .. end()`),
the structural-zero test (`TensorImpl_::is_zero`), the source array's locality
test (`array_.is_local`), the eventual value delivered by `array_.find`, the
readiness of that future at request time (`tile.probe()`), and the shared tile
operation `op_`. -/
structure ArrayEvalEnv (Tile R : Type) where
  pmapLocals : List ℕ
  isZero : ℕ → Bool
  arrayIsLocal : ℕ → Bool
  arrayFind : ℕ → Tile
  findReady : ℕ → Bool
  op : Tile → Bool → R

/-- How a tile was inserted into the distributed storage container: directly
(the future was already resolved) or through a spawned high-priority task bound
to the future's completion.  Both paths insert the same lazy tile value. -/
inductive SetMode where
  | immediate : SetMode
  | spawnedTask : SetMode
deriving DecidableEq

/-- One insertion performed by `eval_kernel` via `DistEvalImpl_::set_tile`:
the target ordinal, the lazy tile value, and the insertion mode. -/
structure TileInsertion (Tile R : Type) where
  target : ℕ
  value : LazyArrayTile Tile R
  mode : SetMode

/-- The tile-evaluation loop `ArrayEvalImpl::eval_kernel` (array_eval.h lines
184-222), parametrised by the source-ordinal map `getArrayIndex` (the
`get_array_index` overload chosen by `eval_tiles`).  For each local target
ordinal that is not structurally zero it computes the source ordinal, sets
`consumable_tile = ! array_.is_local(array_index)`, requests the source tile,
inserts the lazy tile (immediately when the future probes ready, else through a
spawned task), and increments the task counter.  Returns the insertions in
program order together with the final `task_count`. -/
def eval_kernel {Tile R : Type} (env : ArrayEvalEnv Tile R)
    (getArrayIndex : ℕ → ℕ) : List ℕ → List (TileInsertion Tile R) × ℕ
  | [] => ([], 0)
  | i :: rest =>
    let tail := eval_kernel env getArrayIndex rest
    if env.isZero i then tail
    else
      let array_index := getArrayIndex i
      let consumable_tile := ! env.arrayIsLocal array_index
      let ins : TileInsertion Tile R :=
        { target := i
          value := ⟨env.arrayFind array_index, env.op, consumable_tile⟩
          mode := if env.findReady array_index then SetMode.immediate
                  else SetMode.spawnedTask }
      (ins :: tail.1, tail.2 + 1)

/-- Source-ordinal computation with a permutation (array_eval.h lines 164-166):
`array_.range().ord(inv_perm ^ TensorImpl_::range().idx(i))`. -/
def get_array_index_perm (srcRange tgtRange : RangeModel)
    (inv_perm : Permutation) (i : ℕ) : ℕ :=
  srcRange.ord (inv_perm.apply (tgtRange.idx i))

/-- Source-ordinal computation without a permutation (array_eval.h lines
172-174): the identity map on ordinals. -/
def get_array_index_noperm (i : ℕ) : ℕ := i

/-- The driver `ArrayEvalImpl::eval_tiles` (array_eval.h lines 230-240):
dispatch on `perm().dim() > 1`, running `eval_kernel` with the inverse
permutation `-perm` in the permuted case and with `NoPermutation` (the identity
ordinal map) otherwise. -/
def eval_tiles {Tile R : Type} (env : ArrayEvalEnv Tile R) (perm : Permutation)
    (srcRange tgtRange : RangeModel) : List (TileInsertion Tile R) × ℕ :=
  if 1 < perm.dim then
    eval_kernel env (get_array_index_perm srcRange tgtRange perm.neg)
      env.pmapLocals
  else
    eval_kernel env get_array_index_noperm env.pmapLocals

/-! ### Basic facts about `eval_kernel` -/

/-- Closed form of the insertion list produced by `eval_kernel`. -/
theorem eval_kernel_fst {Tile R : Type} (env : ArrayEvalEnv Tile R)
    (gai : ℕ → ℕ) : ∀ locals : List ℕ,
    (eval_kernel env gai locals).1 =
      locals.filterMap (fun i =>
        if env.isZero i then none
        else some
          { target := i
            value := ⟨env.arrayFind (gai i), env.op, ! env.arrayIsLocal (gai i)⟩
            mode := if env.findReady (gai i) then SetMode.immediate
                    else SetMode.spawnedTask }) := by
  intro locals
  induction locals with
  | nil => rfl
  | cons i rest ih =>
    by_cases h : env.isZero i <;>
      simp [eval_kernel, h, ih]

/-- Closed form of the task counter produced by `eval_kernel`. -/
theorem eval_kernel_snd {Tile R : Type} (env : ArrayEvalEnv Tile R)
    (gai : ℕ → ℕ) : ∀ locals : List ℕ,
    (eval_kernel env gai locals).2 =
      (locals.filter (fun i => ! env.isZero i)).length := by
  intro locals
  induction locals with
  | nil => rfl
  | cons i rest ih =>
    by_cases h : env.isZero i <;>
      simp [eval_kernel, h, ih, List.filter]

/-! ### Claims C1-C3: the `ArrayEvalImpl` tile-evaluation loop -/

/-- C1: in `ArrayEvalImpl`'s tile-evaluation loop, for every
non-structurally-zero target tile ordinal that is local to the evaluator, a
lazy tile is inserted whose consumable flag is true if and only if the source
tile is not locally owned by the source array
(`const bool consumable_tile = ! array_.is_local(array_index);`,
array_eval.h line 203); moreover every inserted tile obeys this rule. -/
theorem arrayEval_consumable_iff_remote {Tile R : Type}
    (env : ArrayEvalEnv Tile R) (gai : ℕ → ℕ) (i : ℕ)
    (hmem : i ∈ env.pmapLocals) (hnz : env.isZero i = false) :
    (∃ ins ∈ (eval_kernel env gai env.pmapLocals).1,
      ins.target = i ∧
        (ins.value.consume = true ↔ env.arrayIsLocal (gai i) = false)) ∧
    (∀ ins ∈ (eval_kernel env gai env.pmapLocals).1,
      ins.value.consume = ! env.arrayIsLocal (gai ins.target)) := by
  rw [eval_kernel_fst]
  constructor
  · exact ⟨{ target := i
             value := ⟨env.arrayFind (gai i), env.op, ! env.arrayIsLocal (gai i)⟩
             mode := if env.findReady (gai i) then SetMode.immediate
                     else SetMode.spawnedTask },
      List.mem_filterMap.mpr ⟨i, hmem, by rw [hnz]; rfl⟩, rfl, by simp⟩
  · intro ins hins
    rcases List.mem_filterMap.mp hins with ⟨j, _, hj⟩
    by_cases h : env.isZero j = true
    · rw [if_pos h] at hj
      exact absurd hj (by simp)
    · rw [if_neg h] at hj
      injection hj with hj
      subst hj
      rfl

/-- Witness for C1: a concrete evaluation environment with one local, nonzero
target ordinal whose source tile is remote; the inserted tile is consumable. -/
theorem arrayEval_consumable_iff_remote_witness :
    (0 ∈ ([0, 1] : List ℕ) ∧ (fun i => i == 1) 0 = false) ∧
    ((∃ ins ∈ (eval_kernel
        (⟨[0, 1], fun i => i == 1, fun _ => false, fun _ => 7,
          fun _ => true, fun t c => if c then t + 1 else t⟩ :
            ArrayEvalEnv ℕ ℕ) id [0, 1]).1,
      ins.target = 0 ∧ (ins.value.consume = true ↔ (fun _ => false) (id 0) = false)) ∧
    (∀ ins ∈ (eval_kernel
        (⟨[0, 1], fun i => i == 1, fun _ => false, fun _ => 7,
          fun _ => true, fun t c => if c then t + 1 else t⟩ :
            ArrayEvalEnv ℕ ℕ) id [0, 1]).1,
      ins.value.consume = ! (fun _ => false) (id ins.target))) :=
  ⟨⟨by decide, by decide⟩,
    arrayEval_consumable_iff_remote
      (⟨[0, 1], fun i => i == 1, fun _ => false, fun _ => 7,
        fun _ => true, fun t c => if c then t + 1 else t⟩ : ArrayEvalEnv ℕ ℕ)
      id 0 (by decide) (by decide)⟩

/-- C2: for every process map and shape, `ArrayEvalImpl::eval_tiles` returns
exactly the number of target tile ordinals that are local to the evaluator's
process map and not structurally zero, and no insertion (immediate or via a
spawned task) is performed for a structurally zero ordinal. -/
theorem arrayEval_task_count {Tile R : Type} (env : ArrayEvalEnv Tile R)
    (perm : Permutation) (srcRange tgtRange : RangeModel) :
    (eval_tiles env perm srcRange tgtRange).2 =
      (env.pmapLocals.filter (fun i => ! env.isZero i)).length ∧
    (∀ ins ∈ (eval_tiles env perm srcRange tgtRange).1,
      env.isZero ins.target = false ∧ ins.target ∈ env.pmapLocals) := by
  have key : ∀ gai : ℕ → ℕ,
      (eval_kernel env gai env.pmapLocals).2 =
        (env.pmapLocals.filter (fun i => ! env.isZero i)).length ∧
      (∀ ins ∈ (eval_kernel env gai env.pmapLocals).1,
        env.isZero ins.target = false ∧ ins.target ∈ env.pmapLocals) := by
    intro gai
    refine ⟨eval_kernel_snd env gai env.pmapLocals, ?_⟩
    intro ins hins
    rw [eval_kernel_fst] at hins
    rcases List.mem_filterMap.mp hins with ⟨j, hjmem, hj⟩
    by_cases h : env.isZero j = true
    · rw [if_pos h] at hj
      exact absurd hj (by simp)
    · rw [if_neg h] at hj
      injection hj with hj
      subst hj
      exact ⟨Bool.eq_false_iff.mpr h, hjmem⟩
  unfold eval_tiles
  by_cases h : 1 < perm.dim
  · rw [if_pos h]; exact key _
  · rw [if_neg h]; exact key _

/-- Witness for C2: a concrete environment with three local ordinals, one of
which is structurally zero; the task count is 2 and both insertions are for
nonzero local ordinals. -/
theorem arrayEval_task_count_witness :
    (eval_tiles
        (⟨[0, 1, 2], fun i => i == 1, fun _ => false, fun _ => 7,
          fun _ => true, fun t _ => t⟩ : ArrayEvalEnv ℕ ℕ)
        ⟨0, id, id⟩ ⟨fun _ => [], fun _ => 0⟩ ⟨fun _ => [], fun _ => 0⟩).2 =
      (([0, 1, 2] : List ℕ).filter (fun i => ! (i == 1))).length ∧
    (∀ ins ∈ (eval_tiles
        (⟨[0, 1, 2], fun i => i == 1, fun _ => false, fun _ => 7,
          fun _ => true, fun t _ => t⟩ : ArrayEvalEnv ℕ ℕ)
        ⟨0, id, id⟩ ⟨fun _ => [], fun _ => 0⟩ ⟨fun _ => [], fun _ => 0⟩).1,
      (fun i => i == 1) ins.target = false ∧ ins.target ∈ ([0, 1, 2] : List ℕ)) :=
  arrayEval_task_count
    (⟨[0, 1, 2], fun i => i == 1, fun _ => false, fun _ => 7,
      fun _ => true, fun t _ => t⟩ : ArrayEvalEnv ℕ ℕ)
    ⟨0, id, id⟩ ⟨fun _ => [], fun _ => 0⟩ ⟨fun _ => [], fun _ => 0⟩

/-- C3: for every non-structurally-zero local target tile ordinal `i`,
`eval_tiles` inserts a lazy tile for `i` whose evaluation equals the operator
applied to the source tile at the source ordinal, where the source ordinal is
obtained by applying the inverse permutation `-perm` to the multi-index of `i`
when a (multi-dimensional) permutation is given, and is `i` itself otherwise.
The consume flag passed to the operator is the consumability of that source
tile. -/
theorem arrayEval_source_ordinal {Tile R : Type} (env : ArrayEvalEnv Tile R)
    (perm : Permutation) (srcRange tgtRange : RangeModel) (i : ℕ)
    (hmem : i ∈ env.pmapLocals) (hnz : env.isZero i = false) :
    ∃ ins ∈ (eval_tiles env perm srcRange tgtRange).1,
      ins.target = i ∧
      ins.value.evalType =
        env.op
          (env.arrayFind
            (if 1 < perm.dim then
              srcRange.ord (perm.neg.apply (tgtRange.idx i)) else i))
          (! env.arrayIsLocal
            (if 1 < perm.dim then
              srcRange.ord (perm.neg.apply (tgtRange.idx i)) else i)) := by
  have key : ∀ gai : ℕ → ℕ,
      ∃ ins ∈ (eval_kernel env gai env.pmapLocals).1,
        ins.target = i ∧
        ins.value.evalType =
          env.op (env.arrayFind (gai i)) (! env.arrayIsLocal (gai i)) := by
    intro gai
    rw [eval_kernel_fst]
    exact ⟨{ target := i
             value := ⟨env.arrayFind (gai i), env.op, ! env.arrayIsLocal (gai i)⟩
             mode := if env.findReady (gai i) then SetMode.immediate
                     else SetMode.spawnedTask },
      List.mem_filterMap.mpr ⟨i, hmem, by rw [hnz]; rfl⟩, rfl, rfl⟩
  unfold eval_tiles
  by_cases h : 1 < perm.dim
  · rw [if_pos h]
    simpa [h, get_array_index_perm] using key _
  · rw [if_neg h]
    simpa [h, get_array_index_noperm] using key _

/-- Witness for C3: a concrete two-dimensional environment with a transposing
permutation; the tile evaluated for target ordinal 1 comes from the permuted
source ordinal. -/
theorem arrayEval_source_ordinal_witness :
    (1 ∈ ([0, 1] : List ℕ) ∧ (fun (_ : ℕ) => false) 1 = false) ∧
    (∃ ins ∈ (eval_tiles
        (⟨[0, 1], fun _ => false, fun i => i == 0, fun i => 10 * i,
          fun _ => true, fun t c => if c then t + 1 else t⟩ :
            ArrayEvalEnv ℕ ℕ)
        ⟨2, (fun k => 1 - k), (fun k => 1 - k)⟩
        ⟨fun i => [i / 2, i % 2], fun l => 2 * l.getD 0 0 + l.getD 1 0⟩
        ⟨fun i => [i / 2, i % 2], fun l => 2 * l.getD 0 0 + l.getD 1 0⟩).1,
      ins.target = 1 ∧
      ins.value.evalType =
        (fun t c => if c then t + 1 else t)
          ((fun i => 10 * i)
            (if 1 < (2 : ℕ) then
              (2 * ([1 % 2, 1 / 2].getD 0 0) + [1 % 2, 1 / 2].getD 1 0) else 1))
          (! (fun i => i == 0)
            (if 1 < (2 : ℕ) then
              (2 * ([1 % 2, 1 / 2].getD 0 0) + [1 % 2, 1 / 2].getD 1 0) else 1))) := by
  constructor
  · exact ⟨by decide, rfl⟩
  · have h := arrayEval_source_ordinal
      (⟨[0, 1], fun _ => false, fun i => i == 0, fun i => 10 * i,
        fun _ => true, fun t c => if c then t + 1 else t⟩ : ArrayEvalEnv ℕ ℕ)
      ⟨2, (fun k => 1 - k), (fun k => 1 - k)⟩
      ⟨fun i => [i / 2, i % 2], fun l => 2 * l.getD 0 0 + l.getD 1 0⟩
      ⟨fun i => [i / 2, i % 2], fun l => 2 * l.getD 0 0 + l.getD 1 0⟩
      1 (by decide) rfl
    simpa [Permutation.neg, Permutation.apply, List.range_succ] using h

/-! ### UnaryWrapper (unary_wrapper.h, lines 81-233)

The wrapped base operation `Op` provides three entry points: plain application
`op_(arg)`, application with permutation `op_(arg, perm)`, and the consuming
variant `op_.consume(arg)`.  The wrapper stores the operation and an optional
permutation. -/

/-- The duck-typed base operation interface required by `UnaryWrapper`
(unary_wrapper.h lines 41-79). -/
structure UnaryOpModel (Arg R : Type) where
  applyFn : Arg → R
  applyPermFn : Arg → Permutation → R
  consumeFn : Arg → R

/-- The wrapper itself: the base operation `op_` and the permutation `perm_`
applied to the result. -/
structure UnaryWrapper (Arg R : Type) where
  op : UnaryOpModel Arg R
  perm : Permutation

/-- Events observable while the wrapper evaluates a lazy array tile: forcing
the tile (the `Cast` invocation, i.e. the conversion to the evaluation type)
and the three possible base-operation calls. -/
inductive EvalEvent where
  | castEv : EvalEvent
  | applyEv : EvalEvent
  | applyPermEv : EvalEvent
  | consumeEv : EvalEvent
deriving DecidableEq, BEq

/-- Application of the wrapper to a lazy array tile
(`UnaryWrapper::operator()` for `is_array_tile` arguments, unary_wrapper.h
lines 178-198).  The tile is forced once (`auto cast_arg = invoke(cast, arg);`)
and then exactly one base-operation entry point runs:
`perm_ ? invoke(op_, cast_arg, perm_)
       : (arg.is_consumable() ? invoke(op_consume, cast_arg)
                              : invoke(op_, cast_arg))`.
Returns the result together with the event trace in evaluation order. -/
def UnaryWrapper.applyArrayTile {Tile Arg R : Type} (w : UnaryWrapper Arg R)
    (arg : LazyArrayTile Tile Arg) : R × List EvalEvent :=
  let cast_arg := arg.evalType
  if w.perm.present then
    (w.op.applyPermFn cast_arg w.perm, [EvalEvent.castEv, EvalEvent.applyPermEv])
  else if arg.consume then
    (w.op.consumeFn cast_arg, [EvalEvent.castEv, EvalEvent.consumeEv])
  else
    (w.op.applyFn cast_arg, [EvalEvent.castEv, EvalEvent.applyEv])

/-- The wrapper's `consume` entry point for lazy tiles
(`UnaryWrapper::consume`, unary_wrapper.h lines 201-221): force once, then
`perm_ ? invoke(op_, cast_arg, perm_) : invoke(op_consume, cast_arg)`. -/
def UnaryWrapper.consumeLazy {Tile Arg R : Type} (w : UnaryWrapper Arg R)
    (arg : LazyArrayTile Tile Arg) : R × List EvalEvent :=
  let cast_arg := arg.evalType
  if w.perm.present then
    (w.op.applyPermFn cast_arg w.perm, [EvalEvent.castEv, EvalEvent.applyPermEv])
  else
    (w.op.consumeFn cast_arg, [EvalEvent.castEv, EvalEvent.consumeEv])

/-! ### Claims C4 and C9: wrapper path selection and single forcing -/

/-- C4: applied to a lazy tile that originates from a stored array, the wrapper
first forces the tile (the cast event precedes the operator event in every
trace); with a permutation configured it always takes the permuting,
non-consuming path; without a permutation it calls the consuming variant
exactly when the tile is marked consumable, and the plain apply otherwise. -/
theorem unaryWrapper_array_tile_paths {Tile Arg R : Type}
    (w : UnaryWrapper Arg R) (arg : LazyArrayTile Tile Arg) :
    (w.perm.present = true →
      w.applyArrayTile arg =
        (w.op.applyPermFn arg.evalType w.perm,
          [EvalEvent.castEv, EvalEvent.applyPermEv])) ∧
    (w.perm.present = false → arg.consume = true →
      w.applyArrayTile arg =
        (w.op.consumeFn arg.evalType,
          [EvalEvent.castEv, EvalEvent.consumeEv])) ∧
    (w.perm.present = false → arg.consume = false →
      w.applyArrayTile arg =
        (w.op.applyFn arg.evalType,
          [EvalEvent.castEv, EvalEvent.applyEv])) := by
  refine ⟨fun hp => ?_, fun hp hc => ?_, fun hp hc => ?_⟩
  · simp [UnaryWrapper.applyArrayTile, hp]
  · simp [UnaryWrapper.applyArrayTile, hp, hc]
  · simp [UnaryWrapper.applyArrayTile, hp, hc]

/-- Witness for C4: a concrete wrapper with no permutation applied to a
consumable tile takes the consuming path. -/
theorem unaryWrapper_array_tile_paths_witness :
    ((⟨⟨fun a => a, fun a _ => a + 100, fun a => a + 1⟩, ⟨0, id, id⟩⟩ :
        UnaryWrapper ℕ ℕ).perm.present = false ∧
      (⟨5, fun t _ => t * 2, true⟩ : LazyArrayTile ℕ ℕ).consume = true) ∧
    (⟨⟨fun a => a, fun a _ => a + 100, fun a => a + 1⟩, ⟨0, id, id⟩⟩ :
        UnaryWrapper ℕ ℕ).applyArrayTile
        (⟨5, fun t _ => t * 2, true⟩ : LazyArrayTile ℕ ℕ) =
      ((⟨5, fun t _ => t * 2, true⟩ : LazyArrayTile ℕ ℕ).evalType + 1,
        [EvalEvent.castEv, EvalEvent.consumeEv]) :=
  ⟨⟨rfl, rfl⟩,
    (unaryWrapper_array_tile_paths
      (⟨⟨fun a => a, fun a _ => a + 100, fun a => a + 1⟩, ⟨0, id, id⟩⟩ :
        UnaryWrapper ℕ ℕ)
      (⟨5, fun t _ => t * 2, true⟩ : LazyArrayTile ℕ ℕ)).2.1 rfl rfl⟩

/-- C9: in both wrapper entry points that accept a lazy array tile, the
conversion of the tile to its evaluation type (the forcing cast) is performed
exactly once per evaluation — the evaluation trace contains exactly one cast
event; until then the tile is held unevaluated inside the `LazyArrayTile`. -/
theorem lazy_tile_forced_once {Tile Arg R : Type} (w : UnaryWrapper Arg R)
    (arg : LazyArrayTile Tile Arg) :
    (w.applyArrayTile arg).2.count EvalEvent.castEv = 1 ∧
    (w.consumeLazy arg).2.count EvalEvent.castEv = 1 := by
  unfold UnaryWrapper.applyArrayTile UnaryWrapper.consumeLazy
  by_cases hp : w.perm.present <;> by_cases hc : arg.consume <;>
    simp [hp, hc, List.count_cons] <;> decide

/-! ### The invoke dispatcher (TiledArray::meta::invoke, meta.h lines 286-301)

The C++ dispatcher selects a branch by the static test
`madness::is_future<std::decay_t<Args>>::value...` folded with `or_reduce`:
direct launch when no argument is a future type, async launch (submission to
`taskq.add`, returning a future) when any argument is a future type — whether
or not that future already holds a value. -/

/-- An argument slot: either a plain value or a future, the latter carrying its
current resolution state (`none` = not yet resolved). -/
inductive ArgSlot (α : Type) where
  | value : α → ArgSlot α
  | future : Option α → ArgSlot α

/-- The static test `madness::is_future<decay_t<Args>>::value`. -/
def ArgSlot.isFuture {α : Type} : ArgSlot α → Bool
  | .value _ => false
  | .future _ => true

/-- A slot that is a future and has not yet been resolved. -/
def ArgSlot.isUnresolvedFuture {α : Type} : ArgSlot α → Bool
  | .future none => true
  | _ => false

/-- The value currently held in a slot, if any. -/
def ArgSlot.valueOf {α : Type} : ArgSlot α → Option α
  | .value a => some a
  | .future st => st

/-- Outcome of the dispatcher: a direct (synchronous) result, or a task
submitted to the queue — a continuation whose handle is returned to the caller
without waiting. -/
inductive InvokeOutcome (α β : Type) where
  | direct : β → InvokeOutcome α β
  | submitted : (List α → β) → List (ArgSlot α) → InvokeOutcome α β

/-- Whether the dispatcher applied the function directly. -/
def InvokeOutcome.isDirect {α β : Type} : InvokeOutcome α β → Bool
  | .direct _ => true
  | .submitted _ _ => false

/-- The dispatcher `TiledArray::meta::invoke` (meta.h lines 289-301): if any
argument is a future (`or_reduce` of `is_future` over the argument types), the
application is handed to `taskq.add` and a handle is returned; otherwise the
function is applied directly to the argument values. -/
def invoke {α β : Type} (fn : List α → β) (args : List (ArgSlot α)) :
    InvokeOutcome α β :=
  if args.any ArgSlot.isFuture then InvokeOutcome.submitted fn args
  else InvokeOutcome.direct (fn (args.filterMap ArgSlot.valueOf))

/-! ### Claim C5: dispatch of operator application -/

/-- Counterexample to C5 as stated: with a single argument that is a future
already holding the value 5, no argument is an unresolved asynchronous handle,
yet the dispatcher does not apply the function directly — it submits the
application to the task queue, because the C++ test
`madness::is_future<decay_t<Args>>::value` is a static, type-level test that
does not consult the future's resolution state. -/
theorem invoke_resolved_future_not_direct :
    ([ArgSlot.future (some (5 : ℕ))].any ArgSlot.isUnresolvedFuture = false) ∧
    (invoke (fun l => l.foldl (fun a b => a + b) 0)
        [ArgSlot.future (some (5 : ℕ))]).isDirect = false :=
  ⟨rfl, rfl⟩

/-- C5 (amended): the invoke dispatcher applies the function directly when no
argument is a future (resolved or not), and otherwise submits the application
to the task queue as a continuation, returning a handle instead of waiting; in
particular the deferred branch is taken without inspecting — hence without
blocking on — any future's resolution state. -/
theorem invoke_dispatch {α β : Type} (fn : List α → β)
    (args : List (ArgSlot α)) :
    (args.any ArgSlot.isFuture = false →
      invoke fn args =
        InvokeOutcome.direct (fn (args.filterMap ArgSlot.valueOf))) ∧
    (args.any ArgSlot.isFuture = true →
      invoke fn args = InvokeOutcome.submitted fn args ∧
      (invoke fn args).isDirect = false) := by
  constructor
  · intro h
    simp [invoke, h]
  · intro h
    simp [invoke, h, InvokeOutcome.isDirect]

/-- Witness for C5 (amended): a concrete call with one unresolved future is
submitted to the task queue rather than applied directly. -/
theorem invoke_dispatch_witness :
    ([ArgSlot.future (none : Option ℕ)].any ArgSlot.isFuture = true) ∧
    (invoke (fun l => l.foldl (fun a b => a + b) 0)
        [ArgSlot.future (none : Option ℕ)] =
      InvokeOutcome.submitted (fun l => l.foldl (fun a b => a + b) 0)
        [ArgSlot.future (none : Option ℕ)] ∧
    (invoke (fun l => l.foldl (fun a b => a + b) 0)
        [ArgSlot.future (none : Option ℕ)]).isDirect = false) :=
  ⟨rfl,
    (invoke_dispatch (fun l => l.foldl (fun a b => a + b) 0)
      [ArgSlot.future (none : Option ℕ)]).2 rfl⟩

/-! ### ReduceTask / ReducePairTask (modelled from the spec)

reduce_task.h is not among the provided sources; only its unit tests
(tests/reduce_task.cpp) are.  The following models are written from the spec's
section 4.4: `add` may be called an arbitrary number of times before `submit`,
each operand being either an available value or an asynchronous handle; the
result handle reports "not ready" (probe = false) at every point before the
last operand is supplied; once every operand has arrived the fold of the
operands with the caller-supplied combine function and identity element is the
result, and for a commutative, associative combine function the result is
independent of operand arrival order. -/

/-- Modelled from the spec: a `ReduceTask` after `submit()`.  `slots` holds one
entry per added operand: `some v` for an operand whose value has arrived,
`none` for a future not yet resolved.  `combine` and `identity` are the
caller-supplied binary combine function and identity element. -/
structure ReduceTask (α : Type) where
  combine : α → α → α
  identity : α
  slots : List (Option α)

/-- Modelled from the spec: the non-blocking readiness probe of the result
handle — ready exactly when every operand has arrived. -/
def ReduceTask.probe {α : Type} (t : ReduceTask α) : Bool :=
  t.slots.all Option.isSome

/-- Modelled from the spec: the value visible through the result handle —
`none` while the probe reports not ready, and the fold of the arrived operands
once all of them are in. -/
def ReduceTask.resultNow {α : Type} (t : ReduceTask α) : Option α :=
  if t.probe then some ((t.slots.filterMap id).foldl t.combine t.identity)
  else none

/-- Modelled from the spec: a `ReducePairTask` after `submit()`; each added
operand is a pair, and the combine step folds `combinePair acc first second`
into the accumulator (the tests' `result += first * second`). -/
structure ReducePairTask (α β : Type) where
  combinePair : β → α → α → β
  identity : β
  slots : List (Option (α × α))

/-- Modelled from the spec: readiness probe of a pair-reduction result. -/
def ReducePairTask.probe {α β : Type} (t : ReducePairTask α β) : Bool :=
  t.slots.all Option.isSome

/-- Modelled from the spec: the value visible through the pair-reduction result
handle. -/
def ReducePairTask.resultNow {α β : Type} (t : ReducePairTask α β) : Option β :=
  if t.probe then
    some ((t.slots.filterMap id).foldl
      (fun acc p => t.combinePair acc p.1 p.2) t.identity)
  else none

/-- Folding `acc + g x` over a list accumulates the sum of the images. -/
theorem foldl_add_map_sum {α : Type} (g : α → ℕ) :
    ∀ (l : List α) (init : ℕ),
      l.foldl (fun acc x => acc + g x) init = init + (l.map g).sum := by
  intro l
  induction l with
  | nil => intro init; simp
  | cons x rest ih =>
    intro init
    simp [List.foldl_cons, ih, List.sum_cons]
    omega

/-! ### Claims C6 and C7: the reduction engine on the tests' inputs -/

/-- C6: for a `ReduceTask` over the integer operands 0..99 with combine `+`
and identity 0, the readiness probe is false at every point at which some of
the 100 operands is still unresolved — regardless of which ones have already
arrived — and once all operands have arrived, in any order, the result handle
yields 4950. -/
theorem reduceTask_sum_0_99 (p f : List (Option ℕ))
    (_hplen : p.length = 100) (hpnone : none ∈ p)
    (hf : (f.filterMap id).Perm (List.range 100)) (hfnone : none ∉ f) :
    (ReduceTask.mk (fun a b => a + b) 0 p).probe = false ∧
    (ReduceTask.mk (fun a b => a + b) 0 f).resultNow = some 4950 := by
  constructor
  · show p.all Option.isSome = false
    refine Bool.eq_false_iff.mpr fun hall => ?_
    have := List.all_eq_true.mp hall none hpnone
    simp at this
  · have hprobe : (ReduceTask.mk (fun a b => a + b) 0 f).probe = true := by
      show f.all Option.isSome = true
      refine List.all_eq_true.mpr fun x hx => ?_
      cases x with
      | none => exact absurd hx hfnone
      | some v => rfl
    unfold ReduceTask.resultNow
    rw [hprobe, if_pos rfl]
    show some ((f.filterMap id).foldl (fun acc x => acc + id x) 0) = some 4950
    rw [foldl_add_map_sum id (f.filterMap id) 0, List.map_id, hf.sum_eq]
    norm_num
    decide

/-- Witness for C6: the concrete partially-resolved state with operand 99
still pending has a false probe, and the fully-resolved state in reverse
arrival order yields 4950. -/
theorem reduceTask_sum_0_99_witness :
    ((none :: (List.range 99).map some).length = 100 ∧
      none ∈ (none :: (List.range 99).map some) ∧
      ((((List.range 100).reverse.map some).filterMap id).Perm
        (List.range 100)) ∧
      none ∉ ((List.range 100).reverse.map some)) ∧
    ((ReduceTask.mk (fun a b => a + b) 0
        (none :: (List.range 99).map some)).probe = false ∧
      (ReduceTask.mk (fun a b => a + b) 0
        ((List.range 100).reverse.map some)).resultNow = some 4950) := by
  have h1 : (none :: (List.range 99).map some).length = 100 := by simp
  have h2 : none ∈ (none :: (List.range 99).map (some : ℕ → Option ℕ)) :=
    List.mem_cons_self _ _
  have h3 : (((List.range 100).reverse.map some).filterMap id).Perm
      (List.range 100) := by
    have he : (((List.range 100).reverse.map some).filterMap id) =
        (List.range 100).reverse := by simp
    rw [he]
    exact List.reverse_perm _
  have h4 : none ∉ ((List.range 100).reverse.map (some : ℕ → Option ℕ)) := by
    simp
  exact ⟨⟨h1, h2, h3, h4⟩,
    reduceTask_sum_0_99 (none :: (List.range 99).map some)
      ((List.range 100).reverse.map some) h1 h2 h3 h4⟩

/-- C7: for a `ReducePairTask` over the pairs (i, i) for i in 0..99 with
product-sum semantics (`result += first * second`) and identity 0, once all
pairs have arrived — in any order — the result equals the sum of i squared,
328350. -/
theorem reducePairTask_sum_squares (f : List (Option (ℕ × ℕ)))
    (hf : (f.filterMap id).Perm ((List.range 100).map (fun i => (i, i))))
    (hfnone : none ∉ f) :
    (ReducePairTask.mk (fun acc a b => acc + a * b) 0 f).resultNow =
      some 328350 := by
  have hprobe : (ReducePairTask.mk (fun acc a b => acc + a * b) 0 f).probe
      = true := by
    show f.all Option.isSome = true
    refine List.all_eq_true.mpr fun x hx => ?_
    cases x with
    | none => exact absurd hx hfnone
    | some v => rfl
  unfold ReducePairTask.resultNow
  rw [hprobe, if_pos rfl]
  show some ((f.filterMap id).foldl
      (fun acc x => acc + (fun p : ℕ × ℕ => p.1 * p.2) x) 0) = some 328350
  rw [foldl_add_map_sum (fun p : ℕ × ℕ => p.1 * p.2) (f.filterMap id) 0]
  have hperm := (hf.map (fun p : ℕ × ℕ => p.1 * p.2)).sum_eq
  rw [hperm, List.map_map]
  norm_num
  decide

/-- Witness for C7: the pairs supplied in reverse arrival order give 328350. -/
theorem reducePairTask_sum_squares_witness :
    (((((List.range 100).map (fun i => (i, i))).reverse.map some).filterMap
        id).Perm ((List.range 100).map (fun i => (i, i))) ∧
      none ∉ (((List.range 100).map (fun i => (i, i))).reverse.map some)) ∧
    (ReducePairTask.mk (fun acc a b => acc + a * b) 0
        (((List.range 100).map (fun i => (i, i))).reverse.map some)).resultNow =
      some 328350 := by
  have h3 : ((((List.range 100).map (fun i => (i, i))).reverse.map
      some).filterMap id).Perm ((List.range 100).map (fun i => (i, i))) := by
    have he : ((((List.range 100).map (fun i => (i, i))).reverse.map
        some).filterMap id) =
        ((List.range 100).map (fun i => (i, i))).reverse := by simp
    rw [he]
    exact List.reverse_perm _
  have h4 : none ∉ (((List.range 100).map (fun i => (i, i))).reverse.map
      (some : ℕ × ℕ → Option (ℕ × ℕ))) := by simp
  exact ⟨⟨h3, h4⟩,
    reducePairTask_sum_squares
      (((List.range 100).map (fun i => (i, i))).reverse.map some) h3 h4⟩

/-! ### Claim C8: serializing a lazy tile is fatal -/

/-- C8: attempting to serialize a `LazyArrayTile` never completes normally:
for every tile (in particular one that has not yet been forced) and every
archive, `serialize` raises the `TA_ASSERT(false)` assertion failure instead
of returning normally (array_eval.h lines 91-94). -/
theorem lazyArrayTile_serialize_fatal {Tile R A : Type}
    (t : LazyArrayTile Tile R) (archive : A) :
    t.serialize archive = Except.error "TA_ASSERT failed" :=
  rfl

/-! ### Vectorized binary operation (TiledArray/math/vector_op.h)

`TILEDARRAY_LOOP_UNWIND` is `TILEDARRAY_CACHELINE_SIZE / sizeof(double)
= 64 / 8 = 8`; `index_mask = ~ size_t(TILEDARRAY_LOOP_UNWIND - 1)` on a 64-bit
`std::size_t`.  `binary_vector_op(n, left, right, result, op)` runs a blocked
main loop over full unwound blocks up to `nx = n & index_mask` and a scalar
tail loop over the remaining `n - nx` entries.  Arrays are modelled as
functions from indices; the embedding returns the list of (index, value)
writes performed on `result`, in program order.  The unwound block
(`VecOpUnwindN = VectorOpUnwind<7>`) applies the operation at offsets 0..7 of
the block, each exactly once. -/

/-- The compile-time loop-unwind width (vector_op.h line 88):
cacheline size 64 divided by `sizeof(double)` = 8. -/
def LoopUnwind : ℕ := 64 / 8

/-- The block mask `~ std::size_t(TILEDARRAY_LOOP_UNWIND - 1ul)` on a 64-bit
`size_t` (vector_op.h lines 89 and 308): all bits set except the low three. -/
def index_mask : ℕ := 2 ^ 64 - LoopUnwind

/-- The block iteration limit `nx = n & index_mask` (vector_op.h line 309). -/
def blockLimit (n : ℕ) : ℕ := Nat.land n index_mask

/-- The mask computation clears the low three bits: for any `n` representable
in a 64-bit `size_t`, `n & index_mask` is the largest multiple of the unwind
width not exceeding `n`. -/
theorem blockLimit_eq {n : ℕ} (h : n < 2 ^ 64) :
    blockLimit n = LoopUnwind * (n / LoopUnwind) := by
  have hmask : index_mask = (2 ^ 61 - 1) <<< 3 := by
    rw [Nat.shiftLeft_eq]; norm_num [index_mask, LoopUnwind]
  have hrhs : LoopUnwind * (n / LoopUnwind) = (n >>> 3) <<< 3 := by
    rw [Nat.shiftLeft_eq, Nat.shiftRight_eq_div_pow]
    norm_num [LoopUnwind, Nat.mul_comm]
  apply Nat.eq_of_testBit_eq
  intro i
  rw [blockLimit, hmask, hrhs,
    show ∀ a b : ℕ, Nat.land a b = a &&& b from fun _ _ => rfl,
    Nat.testBit_land, Nat.testBit_shiftLeft,
    Nat.testBit_shiftLeft, Nat.testBit_shiftRight, Nat.testBit_two_pow_sub_one]
  by_cases h3 : 3 ≤ i
  · by_cases h64 : i < 64
    · have e1 : i - 3 < 61 := by omega
      have e2 : 3 + (i - 3) = i := by omega
      simp [h3, e1, e2]
    · have hf : n.testBit i = false :=
        Nat.testBit_lt_two_pow
          (lt_of_lt_of_le h (Nat.pow_le_pow_right (by norm_num) (by omega)))
      have e1 : ¬ (i - 3 < 61) := by omega
      have e2 : 3 + (i - 3) = i := by omega
      simp [h3, e1, e2, hf]
  · simp [h3]

/-- The block copy `copy_block(block, src + base)` (vector_op.h lines
245-249): one full unwound block of `src` starting at `base`. -/
def copy_block {α : Type} (src : ℕ → α) (base : ℕ) : List α :=
  (List.range LoopUnwind).map (fun k => src (base + k))

/-- The fully unwound `for_each_block` (vector_op.h lines 194-200, through
`VecOpUnwindN::for_each`, which touches offsets 0..7 once each): apply the
wrapped operation elementwise to two blocks. -/
def for_each_block_full {α β γ : Type} (wop : α → β → γ) (lb : List α)
    (rb : List β) : List γ :=
  List.zipWith wop lb rb

/-- The write-back `copy_block(result + base, result_block)`: entry `k` of the
computed block is written to index `base + k` of the result array. -/
def block_writeback {γ : Type} (base : ℕ) (blk : List γ) : List (ℕ × γ) :=
  List.zipWith (fun k c => (base + k, c)) (List.range blk.length) blk

/-- One iteration of the blocked main loop of `binary_vector_op` (vector_op.h
lines 341-352): copy the left and right blocks at `base`, apply the wrapper
operation (`res = op(l, r)`) to the full block, and write the block back. -/
def block_writes {α β γ : Type} (wop : α → β → γ) (base : ℕ) (left : ℕ → α)
    (right : ℕ → β) : List (ℕ × γ) :=
  block_writeback base
    (for_each_block_full wop (copy_block left base) (copy_block right base))

/-- The scalar tail `for_each_block(wrapper_op, n - i, result + i, left + i,
right + i)` (vector_op.h lines 202-209 and 354): a plain loop over the
remaining `m` entries starting at `base`. -/
def tail_writes {α β γ : Type} (wop : α → β → γ) (m base : ℕ) (left : ℕ → α)
    (right : ℕ → β) : List (ℕ × γ) :=
  (List.range m).map
    (fun k => (base + k, wop (left (base + k)) (right (base + k))))

/-- The two-input `binary_vector_op` (vector_op.h lines 327-355): the blocked
main loop runs over bases `0, 8, 16, ...` strictly below `nx = n & index_mask`
and the scalar tail covers the remaining `n - nx` entries. -/
def binary_vector_op {α β γ : Type} (n : ℕ) (left : ℕ → α) (right : ℕ → β)
    (op : α → β → γ) : List (ℕ × γ) :=
  let nx := blockLimit n
  ((List.range (nx / LoopUnwind)).flatMap
      (fun b => block_writes op (LoopUnwind * b) left right))
    ++ tail_writes op (n - nx) nx left right

/-- Elementwise product of two mapped lists. -/
theorem zipWith_map_both {α β γ δ : Type} (f : α → β → γ) (g : δ → α)
    (h : δ → β) : ∀ l : List δ,
    List.zipWith f (l.map g) (l.map h) = l.map (fun x => f (g x) (h x)) := by
  intro l
  induction l with
  | nil => rfl
  | cons x rest ih => simp [ih]

/-- Zipping a list with its own image under a map. -/
theorem zipWith_left_map {α β γ : Type} (f : α → β → γ) (h : α → β) :
    ∀ l : List α,
    List.zipWith f l (l.map h) = l.map (fun x => f x (h x)) := by
  intro l
  induction l with
  | nil => rfl
  | cons x rest ih => simp [ih]

/-- One blocked iteration writes exactly the 8 indices of its block, each with
the operation applied to the corresponding left and right entries. -/
theorem block_writes_eq {α β γ : Type} (wop : α → β → γ) (base : ℕ)
    (left : ℕ → α) (right : ℕ → β) :
    block_writes wop base left right =
      (List.range LoopUnwind).map
        (fun k => (base + k, wop (left (base + k)) (right (base + k)))) := by
  unfold block_writes for_each_block_full copy_block block_writeback
  rw [zipWith_map_both, List.length_map, List.length_range, zipWith_left_map]

/-- Concatenating the blocked iterations yields the writes for all indices
below the block limit, in order. -/
theorem range_flatMap_blocks {α β γ : Type} (left : ℕ → α) (right : ℕ → β)
    (wop : α → β → γ) :
    ∀ q : ℕ, (List.range q).flatMap
        (fun b => (List.range LoopUnwind).map
          (fun k => (LoopUnwind * b + k,
            wop (left (LoopUnwind * b + k)) (right (LoopUnwind * b + k))))) =
      (List.range (LoopUnwind * q)).map
        (fun i => (i, wop (left i) (right i))) := by
  intro q
  induction q with
  | zero => rfl
  | succ q ih =>
    have h1 : List.range (q + 1) = List.range q ++ [q] := by
      simpa using List.range_succ (n := q)
    have h2 : LoopUnwind * (q + 1) = LoopUnwind * q + LoopUnwind := by ring
    rw [h1, List.flatMap_append, ih, h2, List.range_add, List.map_append,
      List.map_map]
    simp [Function.comp]

/-! ### Claim C10: `binary_vector_op` computes the elementwise image -/

/-- C10: for every length `n` (representable in a 64-bit `size_t`) and input
arrays `left` and `right`, `binary_vector_op` writes
`result[i] = op(left[i], right[i])` for every index `i < n`, each index
exactly once and in order — whether or not `n` is a multiple of the unwind
width — and the blocked main loop bound `n & index_mask` is the largest
multiple of 8 not exceeding `n`, the tail covering the remaining `n mod 8`
indices. -/
theorem binary_vector_op_writes {α β γ : Type} (n : ℕ) (h : n < 2 ^ 64)
    (left : ℕ → α) (right : ℕ → β) (op : α → β → γ) :
    binary_vector_op n left right op =
      (List.range n).map (fun i => (i, op (left i) (right i))) ∧
    blockLimit n = LoopUnwind * (n / LoopUnwind) := by
  have hb : blockLimit n = LoopUnwind * (n / LoopUnwind) := blockLimit_eq h
  refine ⟨?_, hb⟩
  show ((List.range (blockLimit n / LoopUnwind)).flatMap
      (fun b => block_writes op (LoopUnwind * b) left right))
    ++ tail_writes op (n - blockLimit n) (blockLimit n) left right =
    (List.range n).map (fun i => (i, op (left i) (right i)))
  rw [hb]
  have hq : LoopUnwind * (n / LoopUnwind) / LoopUnwind = n / LoopUnwind :=
    Nat.mul_div_cancel_left _ (by norm_num [LoopUnwind])
  have hr : n - LoopUnwind * (n / LoopUnwind) = n % LoopUnwind := by
    have := Nat.div_add_mod n LoopUnwind
    omega
  rw [hq, hr]
  simp only [block_writes_eq]
  rw [range_flatMap_blocks left right op]
  have hsplit : (List.range n).map (fun i => (i, op (left i) (right i))) =
      (List.range (LoopUnwind * (n / LoopUnwind))).map
        (fun i => (i, op (left i) (right i))) ++
      ((List.range (n % LoopUnwind)).map
        ((LoopUnwind * (n / LoopUnwind)) + ·)).map
        (fun i => (i, op (left i) (right i))) := by
    conv_lhs => rw [← Nat.div_add_mod n LoopUnwind]
    rw [List.range_add, List.map_append]
  rw [hsplit, List.map_map]
  simp [tail_writes, Function.comp]

/-- Witness for C10: a length of 11 (one full block of 8 plus a tail of 3),
with concrete inputs, writes exactly the 11 elementwise products. -/
theorem binary_vector_op_writes_witness :
    ((11 : ℕ) < 2 ^ 64) ∧
    (binary_vector_op 11 (fun i => i) (fun i => i + 1) (fun a b => a * b) =
      (List.range 11).map (fun i => (i, (fun a b => a * b) ((fun i => i) i)
        ((fun i => i + 1) i))) ∧
    blockLimit 11 = LoopUnwind * (11 / LoopUnwind)) :=
  ⟨by norm_num,
    binary_vector_op_writes 11 (by norm_num) (fun i => i) (fun i => i + 1)
      (fun a b => a * b)⟩

end TiledArray
